import Mathlib

/-!
Verification of the client-side state-synchronization layer of flo-webui:
the `ws` and `game` Redux slices and the generated protobuf `Node` codec.

JavaScript objects used as dictionaries (ping maps, the player-session
record) are modelled as insertion-ordered association lists with `Nat`
keys: `m[k] = v` updates the value in place when the key exists and
appends `(k, v)` otherwise, matching JS object assignment and
`Object.entries` iteration order.
-/

/-- A JS object used as a dictionary: insertion-ordered association list. -/
abbrev JsObj (α : Type) := List (Nat × α)

/-- Keys of a JS object, in insertion order. -/
def keys (m : JsObj α) : List Nat := m.map (·.1)

/-- Property read `m[k]`: the value at the first (unique, in real JS) entry
for `k`, or `none` when the key is absent. -/
def objGet : JsObj α → Nat → Option α
  | [], _ => none
  | e :: m, k => if e.1 = k then some e.2 else objGet m k

/-- In-place update of the value stored at every entry whose key is `k`. -/
def overwrite (m : JsObj α) (k : Nat) (v : α) : JsObj α :=
  m.map (fun e => if e.1 = k then (k, v) else e)

/-- Property write `m[k] = v`: overwrite the value in place when the key
exists, else append the new entry, as JS object assignment does. -/
def objSet (m : JsObj α) (k : Nat) (v : α) : JsObj α :=
  if (objGet m k).isSome then overwrite m k v else m ++ [(k, v)]

theorem objGet_append (m₁ m₂ : JsObj α) (k : Nat) :
    objGet (m₁ ++ m₂) k = (objGet m₁ k).orElse (fun _ => objGet m₂ k) := by
  induction m₁ with
  | nil => simp [objGet, Option.orElse]
  | cons e t ih =>
    rw [List.cons_append]
    show (if e.1 = k then some e.2 else objGet (t ++ m₂) k) = _
    by_cases h : e.1 = k
    · simp [objGet, h, Option.orElse]
    · simp [objGet, h, ih]

theorem objGet_cons (e : Nat × α) (m : JsObj α) (k : Nat) :
    objGet (e :: m) k = if e.1 = k then some e.2 else objGet m k := rfl

theorem objGet_isSome_iff_mem_keys (m : JsObj α) (k : Nat) :
    (objGet m k).isSome ↔ k ∈ keys m := by
  induction m with
  | nil => simp [objGet, keys]
  | cons e t ih =>
    rw [objGet_cons]
    by_cases h : e.1 = k
    · simp [h, keys]
    · rw [if_neg h]
      have hK : keys (e :: t) = e.1 :: keys t := rfl
      rw [hK, List.mem_cons, ih]
      constructor
      · intro hk
        exact Or.inr hk
      · intro hk
        rcases hk with hk | hk
        · exact absurd hk.symm h
        · exact hk

theorem objGet_eq_none_of_not_mem_keys (m : JsObj α) (k : Nat)
    (h : k ∉ keys m) : objGet m k = none := by
  cases hg : objGet m k with
  | none => rfl
  | some v =>
    exact absurd ((objGet_isSome_iff_mem_keys m k).mp (by rw [hg]; rfl)) h

theorem keys_overwrite (m : JsObj α) (k : Nat) (v : α) :
    keys (overwrite m k v) = keys m := by
  induction m with
  | nil => rfl
  | cons e t ih =>
    show keys ((if e.1 = k then (k, v) else e) :: overwrite t k v) = _
    by_cases h : e.1 = k
    · simp [h, keys] at ih ⊢
      exact ih
    · simp [h, keys] at ih ⊢
      exact ih

theorem objGet_overwrite_self (m : JsObj α) (k : Nat) (v : α) :
    objGet (overwrite m k v) k =
      if (objGet m k).isSome then some v else none := by
  induction m with
  | nil => rfl
  | cons e t ih =>
    show objGet ((if e.1 = k then (k, v) else e) :: overwrite t k v) k = _
    by_cases h : e.1 = k
    · simp [h, objGet]
    · simp [objGet, h, ih]

theorem objGet_overwrite_ne (m : JsObj α) (k k' : Nat) (v : α)
    (h : k' ≠ k) : objGet (overwrite m k v) k' = objGet m k' := by
  induction m with
  | nil => rfl
  | cons e t ih =>
    show objGet ((if e.1 = k then (k, v) else e) :: overwrite t k v) k'
        = objGet (e :: t) k'
    by_cases he : e.1 = k
    · rw [if_pos he, objGet_cons, objGet_cons]
      have hk : ¬ k = k' := fun hh => h hh.symm
      have he' : ¬ e.1 = k' := by rw [he]; exact hk
      show (if k = k' then some v else objGet (overwrite t k v) k') = _
      rw [if_neg hk, if_neg he', ih]
    · rw [if_neg he, objGet_cons, objGet_cons]
      by_cases he2 : e.1 = k'
      · rw [if_pos he2, if_pos he2]
      · rw [if_neg he2, if_neg he2, ih]

theorem objGet_objSet_self (m : JsObj α) (k : Nat) (v : α) :
    objGet (objSet m k v) k = some v := by
  unfold objSet
  by_cases h : (objGet m k).isSome
  · rw [if_pos h, objGet_overwrite_self, if_pos h]
  · rw [if_neg h, objGet_append]
    have : objGet m k = none := by
      cases hg : objGet m k with
      | none => rfl
      | some w => rw [hg] at h; simp at h
    simp [this, Option.orElse, objGet]

theorem objGet_objSet_ne (m : JsObj α) (k k' : Nat) (v : α) (h : k' ≠ k) :
    objGet (objSet m k v) k' = objGet m k' := by
  unfold objSet
  by_cases ha : (objGet m k).isSome
  · rw [if_pos ha, objGet_overwrite_ne m k k' v h]
  · rw [if_neg ha, objGet_append]
    have hk : ¬ k = k' := fun hh => h hh.symm
    have hne : objGet [(k, v)] k' = none := by
      simp [objGet, hk]
    cases hg : objGet m k' with
    | none => simp [hne, Option.orElse]
    | some w => simp [Option.orElse]

theorem keys_objSet_superset (m : JsObj α) (k a : Nat) (v : α)
    (h : a ∈ keys m) : a ∈ keys (objSet m k v) := by
  unfold objSet
  by_cases hp : (objGet m k).isSome
  · rw [if_pos hp, keys_overwrite]; exact h
  · rw [if_neg hp]
    simp [keys] at h ⊢
    rcases h with ⟨b, hb⟩
    exact Or.inl ⟨b, hb⟩

theorem mem_keys_objSet_self (m : JsObj α) (k : Nat) (v : α) :
    k ∈ keys (objSet m k v) := by
  have := objGet_objSet_self m k v
  exact (objGet_isSome_iff_mem_keys _ k).mp (by rw [this]; rfl)

theorem objSet_entries_self (m : JsObj α) (k : Nat) (v : α) :
    ∀ e ∈ objSet m k v, e.1 = k → e.2 = v := by
  intro e he hk
  unfold objSet at he
  by_cases hp : (objGet m k).isSome
  · rw [if_pos hp] at he
    unfold overwrite at he
    rcases List.mem_map.mp he with ⟨e', _, heq⟩
    by_cases h' : e'.1 = k
    · rw [if_pos h'] at heq
      rw [← heq]
    · rw [if_neg h'] at heq
      rw [← heq] at hk
      exact absurd hk h'
  · rw [if_neg hp] at he
    rcases List.mem_append.mp he with h1 | h1
    · exfalso
      apply hp
      rw [objGet_isSome_iff_mem_keys]
      rw [← hk]
      exact List.mem_map.mpr ⟨e, h1, rfl⟩
    · rcases List.mem_singleton.mp h1 with h2
      rw [h2]

theorem objSet_entries_other (m : JsObj α) (k a : Nat) (v b : α)
    (hne : k ≠ a) (h : ∀ e ∈ m, e.1 = a → e.2 = b) :
    ∀ e ∈ objSet m k v, e.1 = a → e.2 = b := by
  intro e he hk
  unfold objSet at he
  by_cases hp : (objGet m k).isSome
  · rw [if_pos hp] at he
    unfold overwrite at he
    rcases List.mem_map.mp he with ⟨e', he', heq⟩
    by_cases h' : e'.1 = k
    · rw [if_pos h'] at heq
      rw [← heq] at hk
      exact absurd hk hne
    · rw [if_neg h'] at heq
      rw [← heq] at hk ⊢
      exact h e' he' hk
  · rw [if_neg hp] at he
    rcases List.mem_append.mp he with h1 | h1
    · exact h e h1 hk
    · rcases List.mem_singleton.mp h1 with h2
      rw [h2] at hk
      exact absurd hk hne

theorem objSet_eq_self (m : JsObj α) (k : Nat) (v : α)
    (h1 : (objGet m k).isSome) (h2 : ∀ e ∈ m, e.1 = k → e.2 = v) :
    objSet m k v = m := by
  unfold objSet
  rw [if_pos h1]
  unfold overwrite
  have : ∀ e ∈ m, (if e.1 = k then ((k, v) : Nat × α) else e) = e := by
    intro e he
    by_cases hk : e.1 = k
    · rw [if_pos hk]
      have hv := h2 e he hk
      cases e with
      | mk a b =>
        simp only at hk hv
        rw [hk, hv]
    · rw [if_neg hk]
  calc m.map (fun e => if e.1 = k then (k, v) else e)
      = m.map id := List.map_congr_left this
    _ = m := List.map_id m

/-!
## Game slice (redux/modules/game.ts)

Types imported from `types/lobby`, `types/node`, `types/player` are not part
of the observed fragment; they are modelled from the spec (§3): `GameInfo`
keeps the fields the reducers touch (`id`, `slots`, `node`), `Slot` keeps
`settings` (with its `status` plus the remaining configuration abstracted
into one opaque field) and `player`.
-/

/-- Modelled from the spec: slot status enumeration of `types/lobby`
(`status ∈ \x7bOpen, Occupied, ...\x7d`); the reducers only mention `Open`. -/
inductive SlotStatus
  | Open
  | Closed
  | Occupied
deriving DecidableEq

/-- Modelled from the spec: slot settings of `types/lobby`; `rest` abstracts
the configuration fields other than `status` (team, color, ...), which the
observed reducers never inspect. -/
structure SlotSettings where
  status : SlotStatus
  rest : Nat
deriving DecidableEq

/-- Modelled from the spec: player reference of `types/player`. -/
structure PlayerRef where
  id : Nat
  name : String
deriving DecidableEq

/-- Modelled from the spec: a lobby slot (`Slot = \x7bsettings, player\x7d`). -/
structure Slot where
  settings : SlotSettings
  player : Option PlayerRef
deriving DecidableEq

/-- Modelled from the spec: the node reference carried by a `GameInfo`;
`updateCurrentGame` only reads its `id`. -/
structure NodeRef where
  id : Nat
deriving DecidableEq

/-- Modelled from the spec: `GameInfo = \x7bid, slots, node\x7d`; fields of
`types/lobby` not touched by the observed reducers are abstracted by `rest`. -/
structure GameInfo where
  id : Nat
  slots : List Slot
  node : Option NodeRef
  rest : Nat
deriving DecidableEq

/-- A per-player ping map: JS object keyed by node id. -/
abbrev NodePingMap := JsObj Nat

/-- The incrementally merged ping map: JS object keyed by player id. -/
abbrev GamePlayerPingMap := JsObj NodePingMap

/-- Modelled from the spec: opaque payload of a
`GamePlayerPingMapSnapshot` message (replaced wholesale, never inspected). -/
structure GamePlayerPingSnapshot where
  data : Nat
deriving DecidableEq

/-- An error value (`SerializedError`); only `message` is ever built. -/
structure SerializedError where
  message : String
deriving DecidableEq

/-- State of the game slice (`GameState` in game.ts). -/
structure GameState where
  createGameLoading : Bool
  createGameError : Option SerializedError
  currentGame : Option GameInfo
  currentNodeId : Option Nat
  currentNodeLoading : Bool
  currentPingMap : Option GamePlayerPingMap
  pingSnapshotLoading : Bool
  pingSnapshot : Option GamePlayerPingSnapshot
deriving DecidableEq

/-- `initialState` of the game slice. -/
def gameInitialState : GameState :=
  { createGameLoading := false
    createGameError := none
    currentGame := none
    currentNodeId := none
    currentNodeLoading := false
    currentPingMap := none
    pingSnapshotLoading := false
    pingSnapshot := none }

/-- Reducer `updateCurrentGame`: replace the current game; derive
`currentNodeId` from `payload.node`, clear ping and loading/error state. -/
def updateCurrentGame (s : GameState) (payload : Option GameInfo) : GameState :=
  { s with
    currentGame := payload
    currentNodeId :=
      match payload with
      | some g =>
        match g.node with
        | some n => some n.id
        | none => none
      | none => none
    currentPingMap := none
    createGameLoading := false
    currentNodeLoading := false
    createGameError := none }

/-- In-place update `slots[slot_index].settings = slot_settings` on a slot
list. JS would throw on an out-of-range index (the spec calls that an error
condition); no claim exercises that case, and the model leaves the list
unchanged there. -/
def setSlotSettings (slots : List Slot) (slot_index : Nat)
    (slot_settings : SlotSettings) : List Slot :=
  slots.mapIdx (fun j slot =>
    if j = slot_index then { slot with settings := slot_settings } else slot)

/-- Reducer `updateSlot`: guarded by `currentGame && currentGame.id === game_id`. -/
def updateSlot (s : GameState) (game_id slot_index : Nat)
    (slot_settings : SlotSettings) : GameState :=
  match s.currentGame with
  | some g =>
    if g.id = game_id then
      let g2 := { g with slots := setSlotSettings g.slots slot_index slot_settings }
      { s with currentGame := some g2 }
    else s
  | none => s

/-- Reducer `startUpdateNode`. -/
def startUpdateNode (s : GameState) : GameState :=
  { s with currentNodeId := none, currentNodeLoading := true }

/-- Reducer `updateNode` (`GameSelectNode`): guarded by the game id. -/
def updateNode (s : GameState) (game_id node_id : Nat) : GameState :=
  match s.currentGame with
  | some g =>
    if g.id = game_id then
      { s with
        currentNodeId := some node_id
        currentNodeLoading := false
        currentPingMap := none }
    else s
  | none => s

/-- In-place update `slots[slot_index] = slot`, as in `setSlotSettings`. -/
def setSlot (slots : List Slot) (slot_index : Nat) (slot : Slot) : List Slot :=
  slots.mapIdx (fun j old => if j = slot_index then slot else old)

/-- Reducer `updatePlayerEnter`: guarded by the game id; wholesale slot
replacement. -/
def updatePlayerEnter (s : GameState) (game_id slot_index : Nat)
    (slot : Slot) : GameState :=
  match s.currentGame with
  | some g =>
    if g.id = game_id then
      { s with currentGame := some ({ g with slots := setSlot g.slots slot_index slot }) }
    else s
  | none => s

/-- The predicate of the `find` call in `updatePlayerLeave`:
`s.player && s.player.id === player_id`. -/
def slotMatches (slot : Slot) (player_id : Nat) : Bool :=
  match slot.player with
  | some p => p.id == player_id
  | none => false

/-- A slot after `slot.player = null; slot.settings.status = SlotStatus.Open`. -/
def clearSlot (slot : Slot) : Slot :=
  { slot with player := none, settings := ({ slot.settings with status := SlotStatus.Open }) }

/-- `slots.find(...)` followed by in-place mutation: clear the first slot
whose player matches; leave everything unchanged when none does (the source
only logs a diagnostic in that branch). -/
def clearFirstMatch (slots : List Slot) (player_id : Nat) : List Slot :=
  match slots with
  | [] => []
  | slot :: restSlots =>
    if slotMatches slot player_id then clearSlot slot :: restSlots
    else slot :: clearFirstMatch restSlots player_id

/-- Reducer `updatePlayerLeave`: guarded by the game id. -/
def updatePlayerLeave (s : GameState) (game_id player_id : Nat) : GameState :=
  match s.currentGame with
  | some g =>
    if g.id = game_id then
      { s with currentGame := some ({ g with slots := clearFirstMatch g.slots player_id }) }
    else s
  | none => s

/-- Reducer `startLoadPingSnapshot`. -/
def startLoadPingSnapshot (s : GameState) : GameState :=
  { s with pingSnapshotLoading := true, pingSnapshot := none }

/-- Reducer `setPingSnapshot`. -/
def setPingSnapshot (s : GameState) (payload : Option GamePlayerPingSnapshot) :
    GameState :=
  { s with pingSnapshotLoading := false, pingSnapshot := payload }

/-- Payload of a `PlayerPingMapUpdate` message. -/
structure PingDelta where
  player_id : Nat
  ping_map : NodePingMap
deriving DecidableEq

/-- Merge entries of a ping-map delta into an existing per-player map:
`for (let [node_id, ping] of Object.entries(payload.ping_map)) map[node_id] = ping`. -/
def mergeInner (map : NodePingMap) (dm : NodePingMap) : NodePingMap :=
  dm.foldl (fun m e => objSet m e.1 e.2) map

/-- The new `currentPingMap` produced by `updateCurrentPing`. -/
def mergePing (cpm : Option GamePlayerPingMap) (d : PingDelta) : GamePlayerPingMap :=
  match cpm with
  | none => [(d.player_id, d.ping_map)]
  | some cpm =>
    match objGet cpm d.player_id with
    | some map => objSet cpm d.player_id (mergeInner map d.ping_map)
    | none => objSet cpm d.player_id d.ping_map

/-- Reducer `updateCurrentPing`. -/
def updateCurrentPing (s : GameState) (d : PingDelta) : GameState :=
  { s with currentPingMap := some (mergePing s.currentPingMap d) }

/-!
## Ws slice (redux/modules/ws.ts)

Message payload types come from `types/ws`, outside the observed fragment;
their contents are opaque to the reducers, so they are modelled minimally.
The player-session record is a JS object (shallow-merged by
`updatePlayerSessionPartial`), modelled as `JsObj Nat`.
-/

/-- Modelled from the spec: connection status enumeration
(`status ∈ \x7bIdle, Connecting, Connected, Disconnected\x7d`). -/
inductive WsStatus
  | Idle
  | Connecting
  | Connected
  | Disconnected
deriving DecidableEq

/-- Modelled from the spec: opaque payload of a `ClientInfo` message. -/
structure ClientInfoMessage where
  data : Nat
deriving DecidableEq

/-- Modelled from the spec: the player-session record, a JS object whose
individual fields the reducers never inspect. -/
abbrev PlayerSessionMessage := JsObj Nat

/-- State of the ws slice (`WsState` in ws.ts). -/
structure WsState where
  status : WsStatus
  error : Option SerializedError
  clientInfo : Option ClientInfoMessage
  clientInfoReloading : Bool
  clientInfoReloadError : Option SerializedError
  playerSession : Option PlayerSessionMessage
  playerSessionLoading : Bool
  playerSessionError : Option SerializedError
  disconnectError : Option SerializedError
deriving DecidableEq

/-- `initialState` of the ws slice (the `error` field is simply absent
there, i.e. `none`). -/
def wsInitialState : WsState :=
  { status := WsStatus.Idle
    error := none
    clientInfo := none
    clientInfoReloading := false
    clientInfoReloadError := none
    playerSession := none
    playerSessionLoading := false
    playerSessionError := none
    disconnectError := none }

/-- One action of the ws slice. `patchPlayerSession` is the source's
`updatePlayerSessionPartial` (renamed). -/
inductive WsOp
  | updateStatus (v : WsStatus)
  | updateError (e : Option SerializedError)
  | updateClientInfo (v : Option ClientInfoMessage)
  | updateReloadClientInfoError (e : Option SerializedError)
  | updateClientInfoReloading (b : Bool)
  | updatePlayerSession (v : Option PlayerSessionMessage)
  | patchPlayerSession (p : PlayerSessionMessage)
  | updatePlayerSessionLoading (b : Bool)
  | updatePlayerSessionError (e : Option SerializedError)
  | setWsDisconnected
  | setDisconnectError (e : Option SerializedError)
deriving DecidableEq

/-- The JS spread `\x7b...state.playerSession, ...payload\x7d`: start from the
old object (`\x7b\x7d` when it is null) and assign every entry of the patch. -/
def spreadMerge (old : Option PlayerSessionMessage) (p : PlayerSessionMessage) :
    PlayerSessionMessage :=
  p.foldl (fun m e => objSet m e.1 e.2) (old.getD [])

/-- The ws-slice reducer: one step per dispatched action, transcribing each
`reducers` entry of `wsSlice`. -/
def applyWsOp (s : WsState) (op : WsOp) : WsState :=
  match op with
  | WsOp.updateStatus v => { s with status := v }
  | WsOp.updateError e =>
    if e.isSome then
      { s with error := e, status := WsStatus.Disconnected }
    else
      { s with error := e }
  | WsOp.updateClientInfo v => { s with clientInfo := v }
  | WsOp.updateReloadClientInfoError e =>
    { s with clientInfoReloading := false, clientInfoReloadError := e }
  | WsOp.updateClientInfoReloading b => { s with clientInfoReloading := b }
  | WsOp.updatePlayerSession v =>
    { s with playerSessionLoading := false, playerSession := v }
  | WsOp.patchPlayerSession p =>
    { s with
      playerSessionLoading := false
      playerSession := some (spreadMerge s.playerSession p) }
  | WsOp.updatePlayerSessionLoading b =>
    { s with playerSessionLoading := b, playerSessionError := none }
  | WsOp.updatePlayerSessionError e =>
    { s with
      playerSessionLoading := false
      playerSession := none
      playerSessionError := e }
  | WsOp.setWsDisconnected =>
    { s with
      status := WsStatus.Disconnected
      clientInfoReloading := if s.clientInfoReloading then false else s.clientInfoReloading
      clientInfo := none
      playerSessionLoading := if s.playerSessionLoading then false else s.playerSessionLoading
      playerSession := none }
  | WsOp.setDisconnectError e => { s with disconnectError := e }

/-- Apply a sequence of ws-slice actions in dispatch order. -/
def applyWsOps (s : WsState) (ops : List WsOp) : WsState :=
  ops.foldl applyWsOp s

/-- The two dispatches of `dispatchMessage`'s `Disconnect` case: build
`error = \x7bmessage\x7d` from the payload, then
`updatePlayerSessionError(error)` and `setDisconnectError(error)`. -/
def dispatchDisconnect (s : WsState) (message : String) : WsState :=
  applyWsOp
    (applyWsOp s (WsOp.updatePlayerSessionError (some ⟨message⟩)))
    (WsOp.setDisconnectError (some ⟨message⟩))

/-!
## Claim theorems: game-id guard, replaceGame(null), Disconnect dispatch,
and the error/status invariant.
-/

/-- C1: every game-slice mutation that carries a `game_id` (`updateSlot`,
`updateNode`, `updatePlayerEnter`, `updatePlayerLeave`) leaves the whole
game state unchanged whenever the payload's `game_id` differs from
`currentGame.id` or `currentGame` is null. -/
theorem gameId_mismatch_noop (s : GameState) (game_id : Nat)
    (h : ∀ g, s.currentGame = some g → g.id ≠ game_id) :
    (∀ slot_index slot_settings,
        updateSlot s game_id slot_index slot_settings = s) ∧
    (∀ node_id, updateNode s game_id node_id = s) ∧
    (∀ slot_index slot, updatePlayerEnter s game_id slot_index slot = s) ∧
    (∀ player_id, updatePlayerLeave s game_id player_id = s) := by
  refine ⟨?_, ?_, ?_, ?_⟩
  · intro slot_index slot_settings
    unfold updateSlot
    cases hg : s.currentGame with
    | none => rfl
    | some g => exact if_neg (h g hg)
  · intro node_id
    unfold updateNode
    cases hg : s.currentGame with
    | none => rfl
    | some g => exact if_neg (h g hg)
  · intro slot_index slot
    unfold updatePlayerEnter
    cases hg : s.currentGame with
    | none => rfl
    | some g => exact if_neg (h g hg)
  · intro player_id
    unfold updatePlayerLeave
    cases hg : s.currentGame with
    | none => rfl
    | some g => exact if_neg (h g hg)

/-- Witness for `gameId_mismatch_noop`: from the initial state (no current
game) every guarded mutation at game id 1 is a no-op. -/
theorem gameId_mismatch_noop_witness :
    updateSlot gameInitialState 1 0 ⟨SlotStatus.Open, 0⟩ = gameInitialState ∧
    updateNode gameInitialState 1 9 = gameInitialState ∧
    updatePlayerLeave gameInitialState 1 7 = gameInitialState := by
  have h := gameId_mismatch_noop gameInitialState 1 (fun g hg => by cases hg)
  exact ⟨h.1 0 ⟨SlotStatus.Open, 0⟩, h.2.1 9, h.2.2.2 7⟩

/-- C6: `updateCurrentGame` with a null payload always yields
`currentGame = null`, `currentNodeId = null`, `currentPingMap = null`,
`currentNodeLoading = false` and `createGameError = null`. -/
theorem updateCurrentGame_null (s : GameState) :
    (updateCurrentGame s none).currentGame = none ∧
    (updateCurrentGame s none).currentNodeId = none ∧
    (updateCurrentGame s none).currentPingMap = none ∧
    (updateCurrentGame s none).currentNodeLoading = false ∧
    (updateCurrentGame s none).createGameError = none :=
  ⟨rfl, rfl, rfl, rfl, rfl⟩

/-- C5 counterexample: dispatching a `Disconnect` envelope does not force
`status = Disconnected` — from a connected state the status stays
`Connected`; only the error fields change. -/
theorem dispatchDisconnect_keeps_status :
    (dispatchDisconnect
        (applyWsOps wsInitialState [WsOp.updateStatus WsStatus.Connected])
        "connection closed").status = WsStatus.Connected ∧
    WsStatus.Connected ≠ WsStatus.Disconnected := by
  exact ⟨rfl, by decide⟩

/-- C5 amended: dispatching a `Disconnect` envelope sets `disconnectError`
(and `playerSessionError`) to an error built from the payload's message and
clears the player session, but leaves `status` unchanged — the status
transition happens in the transport layer, not in this dispatcher. -/
theorem dispatchDisconnect_spec (s : WsState) (message : String) :
    (dispatchDisconnect s message).disconnectError = some ⟨message⟩ ∧
    (dispatchDisconnect s message).playerSessionError = some ⟨message⟩ ∧
    (dispatchDisconnect s message).playerSession = none ∧
    (dispatchDisconnect s message).playerSessionLoading = false ∧
    (dispatchDisconnect s message).status = s.status :=
  ⟨rfl, rfl, rfl, rfl, rfl⟩

/-- The invariant claimed for the ws slice: a non-null `error` forces
`status = Disconnected`. -/
def errorInv (s : WsState) : Prop :=
  s.error.isSome → s.status = WsStatus.Disconnected

/-- Whether an action is an `updateStatus` dispatch. -/
def isStatusOverwrite : WsOp → Bool
  | WsOp.updateStatus _ => true
  | _ => false

/-- C4 counterexample: the invariant `error non-null → Disconnected` is not
preserved by `updateStatus` — after `updateError(some e)` followed by
`updateStatus(Connected)` the error is still set while the status is
`Connected`. -/
theorem wsErrorInvariant_counterexample :
    ((applyWsOps wsInitialState
        [WsOp.updateError (some ⟨"boom"⟩),
         WsOp.updateStatus WsStatus.Connected]).error).isSome = true ∧
    (applyWsOps wsInitialState
        [WsOp.updateError (some ⟨"boom"⟩),
         WsOp.updateStatus WsStatus.Connected]).status
      ≠ WsStatus.Disconnected := by
  exact ⟨rfl, by decide⟩

theorem errorInv_step (s : WsState) (op : WsOp) (hs : errorInv s)
    (hop : isStatusOverwrite op = false) : errorInv (applyWsOp s op) := by
  cases op with
  | updateStatus v => simp [isStatusOverwrite] at hop
  | updateError e =>
    intro hc
    by_cases he : e.isSome
    · simp [applyWsOp, he]
    · simp [applyWsOp, he] at hc
  | updateClientInfo v => exact fun hc => hs hc
  | updateReloadClientInfoError e => exact fun hc => hs hc
  | updateClientInfoReloading b => exact fun hc => hs hc
  | updatePlayerSession v => exact fun hc => hs hc
  | patchPlayerSession p => exact fun hc => hs hc
  | updatePlayerSessionLoading b => exact fun hc => hs hc
  | updatePlayerSessionError e => exact fun hc => hs hc
  | setWsDisconnected => exact fun _ => rfl
  | setDisconnectError e => exact fun hc => hs hc

/-- C4 amended: the invariant `error non-null → status = Disconnected`
holds in every state reachable from the initial state by a sequence of
ws-slice actions that contains no `updateStatus`; `updateStatus` itself can
break it (see the counterexample). -/
theorem wsErrorInvariant_amended (ops : List WsOp)
    (h : ∀ op ∈ ops, isStatusOverwrite op = false) :
    errorInv (applyWsOps wsInitialState ops) := by
  have general : ∀ (l : List WsOp) (s : WsState), errorInv s →
      (∀ op ∈ l, isStatusOverwrite op = false) → errorInv (applyWsOps s l) := by
    intro l
    induction l with
    | nil => intro s hs _; exact hs
    | cons op t ih =>
      intro s hs hl
      have h1 : isStatusOverwrite op = false := hl op (List.mem_cons_self op t)
      have h2 : ∀ o ∈ t, isStatusOverwrite o = false :=
        fun o ho => hl o (List.mem_cons_of_mem op ho)
      exact ih (applyWsOp s op) (errorInv_step s op hs h1) h2
  exact general ops wsInitialState (fun hc => by cases hc) h

/-- Witness for `wsErrorInvariant_amended`: a concrete
`updateStatus`-free action sequence establishing a set error. -/
theorem wsErrorInvariant_amended_witness :
    (∀ op ∈ [WsOp.updateError (some ⟨"boom"⟩), WsOp.setWsDisconnected],
        isStatusOverwrite op = false) ∧
    errorInv (applyWsOps wsInitialState
        [WsOp.updateError (some ⟨"boom"⟩), WsOp.setWsDisconnected]) :=
  ⟨by decide, wsErrorInvariant_amended _ (by decide)⟩

/-!
## playerLeave (C7)
-/

/-- Index variant of the `find` in `updatePlayerLeave`: index of the first
slot whose player matches, if any. -/
def firstMatchIdx (slots : List Slot) (player_id : Nat) : Option Nat :=
  match slots with
  | [] => none
  | slot :: restSlots =>
    if slotMatches slot player_id then some 0
    else (firstMatchIdx restSlots player_id).map (· + 1)

theorem clearFirstMatch_no_match (slots : List Slot) (player_id : Nat)
    (h : ∀ sl ∈ slots, slotMatches sl player_id = false) :
    clearFirstMatch slots player_id = slots := by
  induction slots with
  | nil => rfl
  | cons sl rest ih =>
    unfold clearFirstMatch
    rw [h sl (List.mem_cons_self sl rest)]
    simp only [Bool.false_eq_true, if_false]
    rw [ih (fun x hx => h x (List.mem_cons_of_mem sl hx))]

theorem clearFirstMatch_getElem (slots : List Slot) (player_id : Nat)
    (i : Nat) (h : firstMatchIdx slots player_id = some i) :
    (clearFirstMatch slots player_id)[i]? = (slots[i]?).map clearSlot ∧
    ∀ j, j ≠ i → (clearFirstMatch slots player_id)[j]? = slots[j]? := by
  induction slots generalizing i with
  | nil => cases h
  | cons sl rest ih =>
    unfold firstMatchIdx at h
    unfold clearFirstMatch
    by_cases hm : slotMatches sl player_id
    · rw [if_pos hm] at h ⊢
      have hi : i = 0 := by
        rw [Option.some_inj] at h
        exact h.symm
      subst hi
      constructor
      · simp
      · intro j hj
        cases j with
        | zero => exact absurd rfl hj
        | succ jj => simp
    · rw [if_neg hm] at h ⊢
      rcases Option.map_eq_some'.mp h with ⟨i', hi', hplus⟩
      subst hplus
      rcases ih i' hi' with ⟨ih1, ih2⟩
      constructor
      · rw [List.getElem?_cons_succ, List.getElem?_cons_succ, ih1]
      · intro j hj
        cases j with
        | zero => simp
        | succ jj =>
          rw [List.getElem?_cons_succ, List.getElem?_cons_succ]
          exact ih2 jj (fun hc => hj (by rw [hc]))

/-- C7: with a matching game id, `updatePlayerLeave` clears the first slot
whose player matches `player_id` (player nulled, status reset to `Open`)
and leaves every other slot unchanged; when no slot matches it is a no-op
(the source only logs a diagnostic). -/
theorem updatePlayerLeave_spec (s : GameState) (g : GameInfo)
    (game_id player_id : Nat) (hg : s.currentGame = some g)
    (hid : g.id = game_id) :
    ((∀ sl ∈ g.slots, slotMatches sl player_id = false) →
        updatePlayerLeave s game_id player_id = s) ∧
    (∀ i sl, firstMatchIdx g.slots player_id = some i →
        g.slots[i]? = some sl →
        ∃ g', (updatePlayerLeave s game_id player_id).currentGame = some g' ∧
          g'.id = g.id ∧
          g'.slots[i]? = some (clearSlot sl) ∧
          ∀ j, j ≠ i → g'.slots[j]? = g.slots[j]?) := by
  constructor
  · intro hnone
    simp only [updatePlayerLeave, hg, if_pos hid]
    rw [clearFirstMatch_no_match g.slots player_id hnone]
    have hgeta : ({ g with slots := g.slots } : GameInfo) = g := rfl
    rw [hgeta, ← hg]
  · intro i sl hidx hsl
    refine ⟨{ g with slots := clearFirstMatch g.slots player_id }, ?_, rfl, ?_, ?_⟩
    · simp only [updatePlayerLeave, hg, if_pos hid]
    · rcases clearFirstMatch_getElem g.slots player_id i hidx with ⟨h1, _⟩
      rw [h1, hsl]
      rfl
    · intro j hj
      exact (clearFirstMatch_getElem g.slots player_id i hidx).2 j hj

/-- Witness for `updatePlayerLeave_spec`: the spec's scenario — game
`\x7bid: 1, slots: [\x7bstatus: Occupied, player: \x7bid: 7\x7d\x7d]\x7d`
receiving `playerLeave(1, 7)` opens the slot. -/
theorem updatePlayerLeave_spec_witness :
    ∃ g', (updatePlayerLeave
        { gameInitialState with
            currentGame := some ⟨1, [⟨⟨SlotStatus.Occupied, 0⟩, some ⟨7, "a"⟩⟩], none, 0⟩ }
        1 7).currentGame = some g' ∧
      g'.id = 1 ∧
      g'.slots[0]? = some (clearSlot ⟨⟨SlotStatus.Occupied, 0⟩, some ⟨7, "a"⟩⟩) ∧
      ∀ j, j ≠ 0 →
        g'.slots[j]? = ([⟨⟨SlotStatus.Occupied, 0⟩, some ⟨7, "a"⟩⟩] : List Slot)[j]? :=
  (updatePlayerLeave_spec
      { gameInitialState with
          currentGame := some ⟨1, [⟨⟨SlotStatus.Occupied, 0⟩, some ⟨7, "a"⟩⟩], none, 0⟩ }
      ⟨1, [⟨⟨SlotStatus.Occupied, 0⟩, some ⟨7, "a"⟩⟩], none, 0⟩
      1 7 rfl rfl).2 0 ⟨⟨SlotStatus.Occupied, 0⟩, some ⟨7, "a"⟩⟩ (by decide) (by decide)

/-!
## mergePing (C2): idempotence under replay and the spec's merge rule
-/

theorem mergeInner_cons (map : NodePingMap) (e : Nat × Nat) (dm : NodePingMap) :
    mergeInner map (e :: dm) = mergeInner (objSet map e.1 e.2) dm := rfl

theorem objGet_mergeInner (map dm : NodePingMap) (n : Nat) :
    objGet (mergeInner map dm) n =
      (objGet dm.reverse n).orElse (fun _ => objGet map n) := by
  induction dm generalizing map with
  | nil => simp [mergeInner, objGet, Option.orElse]
  | cons e dm ih =>
    rw [mergeInner_cons, ih]
    have hrev : (e :: dm).reverse = dm.reverse ++ [e] := by simp
    rw [hrev, objGet_append]
    cases hr : objGet dm.reverse n with
    | some w => simp [Option.orElse]
    | none =>
      simp only [Option.orElse, Option.none_orElse]
      by_cases hn : n = e.1
      · subst hn
        rw [objGet_objSet_self]
        simp [objGet]
      · rw [objGet_objSet_ne map e.1 n e.2 hn]
        have : objGet [e] n = none := by
          have hne : ¬ e.1 = n := fun hc => hn hc.symm
          simp [objGet, hne]
        simp [this, Option.orElse]

theorem objGet_reverse_nodup (m : JsObj α) (k : Nat)
    (h : (keys m).Nodup) : objGet m.reverse k = objGet m k := by
  induction m with
  | nil => rfl
  | cons e t ih =>
    have hK : keys (e :: t) = e.1 :: keys t := rfl
    rw [hK, List.nodup_cons] at h
    have hrev : (e :: t).reverse = t.reverse ++ [e] := by simp
    rw [hrev, objGet_append, ih h.2, objGet_cons e t k]
    by_cases hk : e.1 = k
    · subst hk
      have hnone : objGet t e.1 = none :=
        objGet_eq_none_of_not_mem_keys t e.1 h.1
      rw [hnone, if_pos rfl]
      simp [objGet, Option.orElse]
    · rw [if_neg hk]
      cases hg : objGet t k with
      | some w => simp [Option.orElse]
      | none => simp [Option.orElse, objGet, hk]

theorem objGet_mergeInner_nodup (map dm : NodePingMap) (n : Nat)
    (h : (keys dm).Nodup) :
    objGet (mergeInner map dm) n =
      (objGet dm n).orElse (fun _ => objGet map n) := by
  rw [objGet_mergeInner, objGet_reverse_nodup dm n h]

theorem mergeInner_entries_other (map dm : NodePingMap) (a b : Nat)
    (ha : a ∉ keys dm) (h : ∀ e ∈ map, e.1 = a → e.2 = b) :
    ∀ e ∈ mergeInner map dm, e.1 = a → e.2 = b := by
  induction dm generalizing map with
  | nil => exact h
  | cons e0 dm ih =>
    rw [mergeInner_cons]
    have hK : keys (e0 :: dm) = e0.1 :: keys dm := rfl
    rw [hK, List.mem_cons] at ha
    push_neg at ha
    apply ih
    · exact ha.2
    · exact objSet_entries_other map e0.1 a e0.2 b (fun hc => ha.1 hc.symm) h

theorem mergeInner_keys_superset (map dm : NodePingMap) (a : Nat)
    (h : a ∈ keys map) : a ∈ keys (mergeInner map dm) := by
  induction dm generalizing map with
  | nil => exact h
  | cons e0 dm ih =>
    rw [mergeInner_cons]
    exact ih _ (keys_objSet_superset map e0.1 a e0.2 h)

theorem mergeInner_absorbed (map dm : NodePingMap)
    (hnd : (keys dm).Nodup) :
    ∀ e ∈ dm, e.1 ∈ keys (mergeInner map dm) ∧
      ∀ e' ∈ mergeInner map dm, e'.1 = e.1 → e'.2 = e.2 := by
  induction dm generalizing map with
  | nil => intro e he; cases he
  | cons e0 dm ih =>
    have hK : keys (e0 :: dm) = e0.1 :: keys dm := rfl
    rw [hK, List.nodup_cons] at hnd
    intro e he
    rw [mergeInner_cons]
    rcases List.mem_cons.mp he with he0 | hemem
    · subst he0
      constructor
      · exact mergeInner_keys_superset _ dm e.1 (mem_keys_objSet_self map e.1 e.2)
      · exact mergeInner_entries_other _ dm e.1 e.2 hnd.1
          (objSet_entries_self map e.1 e.2)
    · exact ih (objSet map e0.1 e0.2) hnd.2 e hemem

theorem mergeInner_eq_self (map dm : NodePingMap)
    (h : ∀ e ∈ dm, e.1 ∈ keys map ∧ ∀ e' ∈ map, e'.1 = e.1 → e'.2 = e.2) :
    mergeInner map dm = map := by
  induction dm with
  | nil => rfl
  | cons e0 dm ih =>
    rw [mergeInner_cons]
    have h0 := h e0 (List.mem_cons_self e0 dm)
    have hset : objSet map e0.1 e0.2 = map :=
      objSet_eq_self map e0.1 e0.2
        ((objGet_isSome_iff_mem_keys map e0.1).mpr h0.1) h0.2
    rw [hset]
    exact ih (fun e he => h e (List.mem_cons_of_mem e0 he))

theorem nodup_entry_unique (m : JsObj α) (hnd : (keys m).Nodup) :
    ∀ e ∈ m, ∀ e' ∈ m, e'.1 = e.1 → e'.2 = e.2 := by
  induction m with
  | nil => intro e he; cases he
  | cons a t ih =>
    have hK : keys (a :: t) = a.1 :: keys t := rfl
    rw [hK, List.nodup_cons] at hnd
    intro e he e' he' hk
    rcases List.mem_cons.mp he with he1 | he1 <;>
      rcases List.mem_cons.mp he' with he2 | he2
    · rw [he2, he1]
    · subst he1
      exfalso
      apply hnd.1
      rw [← hk]
      exact List.mem_map.mpr ⟨e', he2, rfl⟩
    · subst he2
      exfalso
      apply hnd.1
      rw [hk]
      exact List.mem_map.mpr ⟨e, he1, rfl⟩
    · exact ih hnd.2 e he1 e' he2 hk

theorem mergePing_none (d : PingDelta) :
    mergePing none d = [(d.player_id, d.ping_map)] := rfl

theorem mergePing_some_present (m : GamePlayerPingMap) (d : PingDelta)
    (map : NodePingMap) (h : objGet m d.player_id = some map) :
    mergePing (some m) d = objSet m d.player_id (mergeInner map d.ping_map) := by
  simp only [mergePing, h]

theorem mergePing_some_absent (m : GamePlayerPingMap) (d : PingDelta)
    (h : objGet m d.player_id = none) :
    mergePing (some m) d = objSet m d.player_id d.ping_map := by
  simp only [mergePing, h]

theorem mergePing_idem (cpm : Option GamePlayerPingMap) (d : PingDelta)
    (h : (keys d.ping_map).Nodup) :
    mergePing (some (mergePing cpm d)) d = mergePing cpm d := by
  have hdmself : mergeInner d.ping_map d.ping_map = d.ping_map := by
    apply mergeInner_eq_self
    intro e he
    exact ⟨List.mem_map.mpr ⟨e, he, rfl⟩, nodup_entry_unique d.ping_map h e he⟩
  cases cpm with
  | none =>
    have hstep1 : mergePing none d = [(d.player_id, d.ping_map)] := rfl
    rw [hstep1]
    have hget : objGet [(d.player_id, d.ping_map)] d.player_id
        = some d.ping_map := by
      simp [objGet]
    simp only [mergePing, hget, hdmself]
    apply objSet_eq_self
    · rw [hget]; rfl
    · intro e he hk
      rcases List.mem_singleton.mp he with h2
      rw [h2]
  | some m =>
    cases hpg : objGet m d.player_id with
    | some map =>
      have hstep1 : mergePing (some m) d
          = objSet m d.player_id (mergeInner map d.ping_map) := by
        simp only [mergePing, hpg]
      rw [hstep1]
      have hM := objGet_objSet_self m d.player_id (mergeInner map d.ping_map)
      have habs : mergeInner (mergeInner map d.ping_map) d.ping_map
          = mergeInner map d.ping_map :=
        mergeInner_eq_self _ _ (mergeInner_absorbed map d.ping_map h)
      simp only [mergePing, hM, habs]
      apply objSet_eq_self
      · rw [hM]; rfl
      · exact objSet_entries_self m d.player_id (mergeInner map d.ping_map)
    | none =>
      have hstep1 : mergePing (some m) d = objSet m d.player_id d.ping_map := by
        simp only [mergePing, hpg]
      rw [hstep1]
      have hM := objGet_objSet_self m d.player_id d.ping_map
      simp only [mergePing, hM, hdmself]
      apply objSet_eq_self
      · rw [hM]; rfl
      · exact objSet_entries_self m d.player_id d.ping_map

/-- Read the per-player map out of a possibly-null `currentPingMap`. -/
def getPlayerMap : Option GamePlayerPingMap → Nat → Option NodePingMap
  | none, _ => none
  | some cpm, p => objGet cpm p

/-- C2: `updateCurrentPing` is idempotent under replay of the same delta,
and its effect matches the spec's merge rule: with no existing map for the
player the delta is installed as-is; otherwise delta entries overwrite the
entries for the same node, all other entries stay untouched, and other
players' maps are unchanged. -/
theorem updateCurrentPing_idem_and_spec (s : GameState) (d : PingDelta)
    (h : (keys d.ping_map).Nodup) :
    (updateCurrentPing (updateCurrentPing s d) d).currentPingMap
        = (updateCurrentPing s d).currentPingMap ∧
    (getPlayerMap s.currentPingMap d.player_id = none →
        getPlayerMap (updateCurrentPing s d).currentPingMap d.player_id
          = some d.ping_map) ∧
    (∀ map, getPlayerMap s.currentPingMap d.player_id = some map →
        ∃ merged,
          getPlayerMap (updateCurrentPing s d).currentPingMap d.player_id
            = some merged ∧
          (∀ n, n ∈ keys d.ping_map → objGet merged n = objGet d.ping_map n) ∧
          (∀ n, n ∉ keys d.ping_map → objGet merged n = objGet map n)) ∧
    (∀ p, p ≠ d.player_id →
        getPlayerMap (updateCurrentPing s d).currentPingMap p
          = getPlayerMap s.currentPingMap p) := by
  refine ⟨?_, ?_, ?_, ?_⟩
  · show some (mergePing (some (mergePing s.currentPingMap d)) d)
        = some (mergePing s.currentPingMap d)
    rw [mergePing_idem s.currentPingMap d h]
  · intro hnone
    show objGet (mergePing s.currentPingMap d) d.player_id = some d.ping_map
    cases hc : s.currentPingMap with
    | none =>
      rw [mergePing_none]
      simp [objGet]
    | some m =>
      rw [hc] at hnone
      have hm : objGet m d.player_id = none := hnone
      rw [mergePing_some_absent m d hm]
      exact objGet_objSet_self m d.player_id d.ping_map
  · intro map hmap
    cases hc : s.currentPingMap with
    | none =>
      rw [hc] at hmap
      exact Option.noConfusion hmap
    | some m =>
      rw [hc] at hmap
      have hm : objGet m d.player_id = some map := hmap
      refine ⟨mergeInner map d.ping_map, ?_, ?_, ?_⟩
      · show objGet (mergePing s.currentPingMap d) d.player_id
            = some (mergeInner map d.ping_map)
        rw [hc, mergePing_some_present m d map hm]
        exact objGet_objSet_self m d.player_id (mergeInner map d.ping_map)
      · intro n hn
        rw [objGet_mergeInner_nodup map d.ping_map n h]
        cases hg : objGet d.ping_map n with
        | some w => simp [Option.orElse]
        | none =>
          exfalso
          have := objGet_eq_none_of_not_mem_keys d.ping_map n
          rcases (objGet_isSome_iff_mem_keys d.ping_map n).mpr hn with hS
          rw [hg] at hS
          cases hS
      · intro n hn
        rw [objGet_mergeInner_nodup map d.ping_map n h]
        rw [objGet_eq_none_of_not_mem_keys d.ping_map n hn]
        simp [Option.orElse]
  · intro p hp
    show objGet (mergePing s.currentPingMap d) p
        = getPlayerMap s.currentPingMap p
    cases hc : s.currentPingMap with
    | none =>
      rw [mergePing_none]
      have hne : ¬ d.player_id = p := fun hc2 => hp hc2.symm
      show objGet [(d.player_id, d.ping_map)] p = none
      simp [objGet, hne]
    | some m =>
      show objGet (mergePing (some m) d) p = objGet m p
      cases hpg : objGet m d.player_id with
      | some map =>
        rw [mergePing_some_present m d map hpg]
        exact objGet_objSet_ne m d.player_id p _ hp
      | none =>
        rw [mergePing_some_absent m d hpg]
        exact objGet_objSet_ne m d.player_id p _ hp

/-- Witness for `updateCurrentPing_idem_and_spec`: the spec's scenario 7
delta `(player 7, \x7b9: 50, 10: 12\x7d)` replayed over
`currentPingMap = \x7b7: \x7b9: 42\x7d\x7d`. -/
theorem updateCurrentPing_idem_and_spec_witness :
    (updateCurrentPing
        (updateCurrentPing
          { gameInitialState with currentPingMap := some [(7, [(9, 42)])] }
          ⟨7, [(9, 50), (10, 12)]⟩)
        ⟨7, [(9, 50), (10, 12)]⟩).currentPingMap
      = (updateCurrentPing
          { gameInitialState with currentPingMap := some [(7, [(9, 42)])] }
          ⟨7, [(9, 50), (10, 12)]⟩).currentPingMap :=
  (updateCurrentPing_idem_and_spec
      { gameInitialState with currentPingMap := some [(7, [(9, 42)])] }
      ⟨7, [(9, 50), (10, 12)]⟩ (by decide)).1

/-!
## Reordering mergePing deltas (C3)
-/

/-- Apply a sequence of `PlayerPingMapUpdate` deltas in arrival order. -/
def applyPingDeltas (s : GameState) (l : List PingDelta) : GameState :=
  l.foldl updateCurrentPing s

/-- Whether a delta affects the `(player, node)` pair `(p, n)`. -/
def affectsB (p n : Nat) (d : PingDelta) : Bool :=
  d.player_id == p && (keys d.ping_map).contains n

/-- The ping recorded for player `p` and node `n`, if any. -/
def lookupPing (o : Option GamePlayerPingMap) (p n : Nat) : Option Nat :=
  match getPlayerMap o p with
  | some m => objGet m n
  | none => none

/-- Whether the ping map has an entry (possibly empty) for player `p`. -/
def hasPlayer (o : Option GamePlayerPingMap) (p : Nat) : Bool :=
  (getPlayerMap o p).isSome

/-- Extensional equality of ping maps: same players present and the same
ping recorded for every `(player, node)` pair. -/
def pingEquiv (a b : Option GamePlayerPingMap) : Prop :=
  ∀ p, hasPlayer a p = hasPlayer b p ∧ ∀ n, lookupPing a p n = lookupPing b p n

/-- A delta as a real JS object: no duplicate node keys. -/
abbrev WFDelta (d : PingDelta) : Prop := (keys d.ping_map).Nodup

/-- `l₂` is a reordering of `l₁` that keeps deltas affecting the same
`(player, node)` pair in their original relative order. -/
def ReorderOK (l₁ l₂ : List PingDelta) : Prop :=
  l₁.Perm l₂ ∧ ∀ p n, l₁.filter (affectsB p n) = l₂.filter (affectsB p n)

/-- Two deltas conflict when they touch a common `(player, node)` pair. -/
def conflicts (a b : PingDelta) : Bool :=
  a.player_id == b.player_id &&
    (keys a.ping_map).any (fun n => (keys b.ping_map).contains n)

theorem contains_iff_mem (l : List Nat) (n : Nat) :
    l.contains n = true ↔ n ∈ l := by
  simp

theorem lookupPing_mergePing (o : Option GamePlayerPingMap) (d : PingDelta)
    (hwf : WFDelta d) (p n : Nat) :
    lookupPing (some (mergePing o d)) p n =
      if affectsB p n d then objGet d.ping_map n else lookupPing o p n := by
  by_cases hp : d.player_id = p
  · have hbeq : (d.player_id == p) = true := by simp [hp]
    by_cases hn : n ∈ keys d.ping_map
    · have haff : affectsB p n d = true := by
        have hcc : (keys d.ping_map).contains n = true :=
          (contains_iff_mem _ n).mpr hn
        unfold affectsB
        rw [hbeq, Bool.true_and, hcc]
      rw [haff, if_pos rfl]
      cases o with
      | none =>
        rw [mergePing_none]
        show (match objGet [(d.player_id, d.ping_map)] p with
          | some m => objGet m n
          | none => none) = objGet d.ping_map n
        simp [objGet, hp]
      | some m =>
        cases hpg : objGet m d.player_id with
        | some map =>
          rw [mergePing_some_present m d map hpg]
          show (match objGet (objSet m d.player_id (mergeInner map d.ping_map)) p with
            | some mm => objGet mm n
            | none => none) = objGet d.ping_map n
          rw [← hp, objGet_objSet_self]
          show objGet (mergeInner map d.ping_map) n = objGet d.ping_map n
          rw [objGet_mergeInner_nodup map d.ping_map n hwf]
          cases hg : objGet d.ping_map n with
          | some w => simp [Option.orElse]
          | none =>
            exfalso
            have hS := (objGet_isSome_iff_mem_keys d.ping_map n).mpr hn
            rw [hg] at hS
            cases hS
        | none =>
          rw [mergePing_some_absent m d hpg]
          show (match objGet (objSet m d.player_id d.ping_map) p with
            | some mm => objGet mm n
            | none => none) = objGet d.ping_map n
          rw [← hp, objGet_objSet_self]
    · have haff : affectsB p n d = false := by
        have hcf : (keys d.ping_map).contains n = false := by
          cases hcc : (keys d.ping_map).contains n with
          | false => rfl
          | true => exact absurd ((contains_iff_mem _ n).mp hcc) hn
        unfold affectsB
        rw [hcf, Bool.and_false]
      rw [haff]
      simp only [Bool.false_eq_true, if_false]
      have hdm : objGet d.ping_map n = none :=
        objGet_eq_none_of_not_mem_keys d.ping_map n
          (fun hc => hn hc)
      cases o with
      | none =>
        rw [mergePing_none]
        show (match objGet [(d.player_id, d.ping_map)] p with
          | some m => objGet m n
          | none => none) = lookupPing none p n
        simp [objGet, hp, hdm, lookupPing, getPlayerMap]
      | some m =>
        cases hpg : objGet m d.player_id with
        | some map =>
          rw [mergePing_some_present m d map hpg]
          show (match objGet (objSet m d.player_id (mergeInner map d.ping_map)) p with
            | some mm => objGet mm n
            | none => none) = lookupPing (some m) p n
          rw [← hp, objGet_objSet_self]
          show objGet (mergeInner map d.ping_map) n = lookupPing (some m) d.player_id n
          rw [objGet_mergeInner_nodup map d.ping_map n hwf, hdm]
          show objGet map n = lookupPing (some m) d.player_id n
          show objGet map n =
            (match getPlayerMap (some m) d.player_id with
              | some mm => objGet mm n
              | none => none)
          show objGet map n =
            (match objGet m d.player_id with
              | some mm => objGet mm n
              | none => none)
          rw [hpg]
        | none =>
          rw [mergePing_some_absent m d hpg]
          show (match objGet (objSet m d.player_id d.ping_map) p with
            | some mm => objGet mm n
            | none => none) = lookupPing (some m) p n
          rw [← hp, objGet_objSet_self]
          show objGet d.ping_map n =
            (match objGet m d.player_id with
              | some mm => objGet mm n
              | none => none)
          rw [hpg, hdm]
  · have haff : affectsB p n d = false := by
      have hbeq : (d.player_id == p) = false := by simp [hp]
      simp [affectsB, hbeq]
    rw [haff]
    simp only [Bool.false_eq_true, if_false]
    cases o with
    | none =>
      rw [mergePing_none]
      show (match objGet [(d.player_id, d.ping_map)] p with
        | some m => objGet m n
        | none => none) = lookupPing none p n
      simp [objGet, hp, lookupPing, getPlayerMap]
    | some m =>
      have hne : p ≠ d.player_id := fun hc => hp hc.symm
      cases hpg : objGet m d.player_id with
      | some map =>
        rw [mergePing_some_present m d map hpg]
        show (match objGet (objSet m d.player_id (mergeInner map d.ping_map)) p with
          | some mm => objGet mm n
          | none => none) = lookupPing (some m) p n
        rw [objGet_objSet_ne m d.player_id p _ hne]
        rfl
      | none =>
        rw [mergePing_some_absent m d hpg]
        show (match objGet (objSet m d.player_id d.ping_map) p with
          | some mm => objGet mm n
          | none => none) = lookupPing (some m) p n
        rw [objGet_objSet_ne m d.player_id p _ hne]
        rfl

theorem hasPlayer_mergePing (o : Option GamePlayerPingMap) (d : PingDelta)
    (p : Nat) :
    hasPlayer (some (mergePing o d)) p
      = (d.player_id == p || hasPlayer o p) := by
  by_cases hp : d.player_id = p
  · have hbeq : (d.player_id == p) = true := by simp [hp]
    rw [hbeq, Bool.true_or]
    cases o with
    | none =>
      rw [mergePing_none]
      show (objGet [(d.player_id, d.ping_map)] p).isSome = true
      simp [objGet, hp]
    | some m =>
      cases hpg : objGet m d.player_id with
      | some map =>
        rw [mergePing_some_present m d map hpg]
        show (objGet (objSet m d.player_id (mergeInner map d.ping_map)) p).isSome = true
        rw [← hp, objGet_objSet_self]
        rfl
      | none =>
        rw [mergePing_some_absent m d hpg]
        show (objGet (objSet m d.player_id d.ping_map) p).isSome = true
        rw [← hp, objGet_objSet_self]
        rfl
  · have hbeq : (d.player_id == p) = false := by simp [hp]
    rw [hbeq, Bool.false_or]
    have hne : p ≠ d.player_id := fun hc => hp hc.symm
    cases o with
    | none =>
      rw [mergePing_none]
      show (objGet [(d.player_id, d.ping_map)] p).isSome = (getPlayerMap none p).isSome
      simp [objGet, hp, getPlayerMap]
    | some m =>
      cases hpg : objGet m d.player_id with
      | some map =>
        rw [mergePing_some_present m d map hpg]
        show (objGet (objSet m d.player_id (mergeInner map d.ping_map)) p).isSome
          = (objGet m p).isSome
        rw [objGet_objSet_ne m d.player_id p _ hne]
      | none =>
        rw [mergePing_some_absent m d hpg]
        show (objGet (objSet m d.player_id d.ping_map) p).isSome
          = (objGet m p).isSome
        rw [objGet_objSet_ne m d.player_id p _ hne]

theorem perm_any_eq (l₁ l₂ : List PingDelta) (h : l₁.Perm l₂)
    (f : PingDelta → Bool) : l₁.any f = l₂.any f := by
  cases h1 : l₁.any f <;> cases h2 : l₂.any f <;> try rfl
  · rw [List.any_eq_false] at h1
    rw [List.any_eq_true] at h2
    rcases h2 with ⟨x, hx, hfx⟩
    exact absurd hfx (h1 x (h.mem_iff.mpr hx))
  · rw [List.any_eq_false] at h2
    rw [List.any_eq_true] at h1
    rcases h1 with ⟨x, hx, hfx⟩
    exact absurd hfx (h2 x (h.mem_iff.mp hx))

theorem lookupPing_applyPingDeltas (l : List PingDelta) :
    ∀ (s : GameState), (∀ d ∈ l, WFDelta d) → ∀ (p n : Nat),
    lookupPing (applyPingDeltas s l).currentPingMap p n =
      match (l.filter (affectsB p n)).getLast? with
      | some d => objGet d.ping_map n
      | none => lookupPing s.currentPingMap p n := by
  induction l with
  | nil => intro s hwf p n; rfl
  | cons d t ih =>
    intro s hwf p n
    have hwt : ∀ x ∈ t, WFDelta x := fun x hx => hwf x (List.mem_cons_of_mem d hx)
    have hstep : applyPingDeltas s (d :: t)
        = applyPingDeltas (updateCurrentPing s d) t := rfl
    rw [hstep, ih (updateCurrentPing s d) hwt p n, List.filter_cons]
    have hcur : (updateCurrentPing s d).currentPingMap
        = some (mergePing s.currentPingMap d) := rfl
    cases hq : affectsB p n d with
    | false =>
      simp only [Bool.false_eq_true, if_false]
      cases hlast : (t.filter (affectsB p n)).getLast? with
      | some e => rfl
      | none =>
        show lookupPing (updateCurrentPing s d).currentPingMap p n
          = lookupPing s.currentPingMap p n
        rw [hcur, lookupPing_mergePing s.currentPingMap d (hwf d (List.mem_cons_self d t)) p n, hq]
        simp only [Bool.false_eq_true, if_false]
    | true =>
      simp only [if_true]
      cases hfil : t.filter (affectsB p n) with
      | nil =>
        show lookupPing (updateCurrentPing s d).currentPingMap p n
          = match ([d] : List PingDelta).getLast? with
            | some e => objGet e.ping_map n
            | none => lookupPing s.currentPingMap p n
        rw [hcur, lookupPing_mergePing s.currentPingMap d (hwf d (List.mem_cons_self d t)) p n, hq]
        rfl
      | cons x xs =>
        rw [List.getLast?_cons_cons]
        cases hy : (x :: xs).getLast? with
        | some y => rfl
        | none =>
          exfalso
          have hS : ((x :: xs).getLast?).isSome :=
            List.getLast?_isSome.mpr (List.cons_ne_nil x xs)
          rw [hy] at hS
          cases hS

theorem hasPlayer_applyPingDeltas (l : List PingDelta) :
    ∀ (s : GameState) (p : Nat),
    hasPlayer (applyPingDeltas s l).currentPingMap p
      = (l.any (fun d => d.player_id == p) || hasPlayer s.currentPingMap p) := by
  induction l with
  | nil =>
    intro s p
    rw [List.any_nil, Bool.false_or]
    rfl
  | cons d t ih =>
    intro s p
    have hstep : applyPingDeltas s (d :: t)
        = applyPingDeltas (updateCurrentPing s d) t := rfl
    rw [hstep, ih (updateCurrentPing s d) p]
    have hcur : hasPlayer (updateCurrentPing s d).currentPingMap p
        = (d.player_id == p || hasPlayer s.currentPingMap p) :=
      hasPlayer_mergePing s.currentPingMap d p
    rw [hcur, List.any_cons]
    cases d.player_id == p <;>
      cases t.any (fun x => x.player_id == p) <;>
      cases hasPlayer s.currentPingMap p <;> rfl

theorem pingEquiv_applyPingDeltas_of_reorderOK (s : GameState)
    (l₁ l₂ : List PingDelta) (hwf : ∀ d ∈ l₁, WFDelta d)
    (hro : ReorderOK l₁ l₂) :
    pingEquiv (applyPingDeltas s l₁).currentPingMap
      (applyPingDeltas s l₂).currentPingMap := by
  have hwf₂ : ∀ d ∈ l₂, WFDelta d := fun d hd => hwf d (hro.1.mem_iff.mpr hd)
  intro p
  constructor
  · rw [hasPlayer_applyPingDeltas l₁ s p, hasPlayer_applyPingDeltas l₂ s p,
      perm_any_eq l₁ l₂ hro.1 (fun d => d.player_id == p)]
  · intro n
    rw [lookupPing_applyPingDeltas l₁ s hwf p n,
      lookupPing_applyPingDeltas l₂ s hwf₂ p n, hro.2 p n]

theorem reorderOK_swap (a b : PingDelta) (hc : conflicts a b = false) :
    ReorderOK [a, b] [b, a] := by
  constructor
  · exact List.Perm.swap b a []
  · intro p n
    cases hqa : affectsB p n a with
    | false =>
      cases hqb : affectsB p n b with
      | false => simp [List.filter_cons, hqa, hqb]
      | true => simp [List.filter_cons, hqa, hqb]
    | true =>
      cases hqb : affectsB p n b with
      | false => simp [List.filter_cons, hqa, hqb]
      | true =>
        exfalso
        have ha' := hqa
        have hb' := hqb
        unfold affectsB at ha' hb'
        rw [Bool.and_eq_true] at ha' hb'
        have hpa : a.player_id = p := by
          have h1 := ha'.1
          rwa [beq_iff_eq] at h1
        have hpb : b.player_id = p := by
          have h1 := hb'.1
          rwa [beq_iff_eq] at h1
        have hna : n ∈ keys a.ping_map := (contains_iff_mem _ n).mp ha'.2
        have hnb : n ∈ keys b.ping_map := (contains_iff_mem _ n).mp hb'.2
        have hconf : conflicts a b = true := by
          have h1 : (a.player_id == b.player_id) = true := by
            rw [hpa, hpb]
            simp
          have h2 : (keys a.ping_map).any
              (fun x => (keys b.ping_map).contains x) = true := by
            rw [List.any_eq_true]
            exact ⟨n, hna, (contains_iff_mem _ n).mpr hnb⟩
          unfold conflicts
          rw [h1, h2]
          rfl
        rw [hconf] at hc
        cases hc

/-- C3: applying a sequence of `updateCurrentPing` deltas from the same
starting state gives extensionally equal `currentPingMap` results for any
two orderings that keep deltas affecting the same `(player, node)` pair in
their original relative order; in particular, two deltas touching disjoint
`(player, node)` key sets commute. -/
theorem updateCurrentPing_reorder (s : GameState) (l₁ l₂ : List PingDelta)
    (hwf : ∀ d ∈ l₁, WFDelta d) (hro : ReorderOK l₁ l₂) :
    pingEquiv (applyPingDeltas s l₁).currentPingMap
      (applyPingDeltas s l₂).currentPingMap ∧
    ∀ (t : GameState) (a b : PingDelta), WFDelta a → WFDelta b →
      conflicts a b = false →
      pingEquiv (applyPingDeltas t [a, b]).currentPingMap
        (applyPingDeltas t [b, a]).currentPingMap := by
  constructor
  · exact pingEquiv_applyPingDeltas_of_reorderOK s l₁ l₂ hwf hro
  · intro t a b hwa hwb hc
    refine pingEquiv_applyPingDeltas_of_reorderOK t [a, b] [b, a] ?_
      (reorderOK_swap a b hc)
    intro d hd
    rcases List.mem_cons.mp hd with h1 | h1
    · rw [h1]; exact hwa
    · rcases List.mem_cons.mp h1 with h2 | h2
      · rw [h2]; exact hwb
      · exact absurd h2 (List.not_mem_nil d)

/-- Witness for `updateCurrentPing_reorder`: two concrete non-conflicting
deltas (players 1 and 3, same node 2) commute from the initial state. -/
theorem updateCurrentPing_reorder_witness :
    conflicts ⟨1, [(2, 10)]⟩ ⟨3, [(2, 20)]⟩ = false ∧
    pingEquiv
      (applyPingDeltas gameInitialState
        [⟨1, [(2, 10)]⟩, ⟨3, [(2, 20)]⟩]).currentPingMap
      (applyPingDeltas gameInitialState
        [⟨3, [(2, 20)]⟩, ⟨1, [(2, 10)]⟩]).currentPingMap :=
  ⟨by decide,
    (updateCurrentPing_reorder gameInitialState [] []
        (fun d hd => absurd hd (List.not_mem_nil d))
        ⟨List.Perm.refl [], fun p n => rfl⟩).2
      gameInitialState ⟨1, [(2, 10)]⟩ ⟨3, [(2, 20)]⟩
      (by decide) (by decide) (by decide)⟩

/-!
## Dispatch router (C8)

`dispatchMessage` switches on the message tag and dispatches one or more
mutation entrypoints. The tags are exactly those with a `case` in the
switch; entrypoints are classified by the module they are imported from in
ws.ts (`./ws` slice actions, `./game`, `./map`, `./node`). The
`router.push("/lobby")` of the `CurrentGameInfo` case is a navigation side
effect, not a state mutation, and is not listed.
-/

/-- The recognized message tags: one per `case` of `dispatchMessage`. -/
inductive MsgTag
  | ClientInfo
  | ReloadClientInfoError
  | PlayerSession
  | PlayerSessionUpdate
  | ConnectRejected
  | Disconnect
  | ListMaps
  | ListMapsError
  | GetMapDetail
  | GetMapDetailError
  | CurrentGameInfo
  | GamePlayerEnter
  | GamePlayerLeave
  | GameSlotUpdate
  | ListNodes
  | PingUpdate
  | GamePlayerPingMapSnapshot
  | GameSelectNode
  | PlayerPingMapUpdate
  | GameStartReject
  | GameStarting
  | GameStarted
  | GameStartError
  | GameSlotClientStatusUpdate
  | GameStatusUpdate
deriving DecidableEq

/-- The state-owning collaborators reachable from the dispatch router. -/
inductive Collaborator
  | ws
  | game
  | map
  | node
deriving DecidableEq

/-- The mutation entrypoints invoked by `dispatchMessage`.
`patchPlayerSessionEp` is the source's `updatePlayerSessionPartial`. -/
inductive Entrypoint
  | updateClientInfoEp
  | updateReloadClientInfoErrorEp
  | updatePlayerSessionEp
  | checkCurrentGameIdEp
  | patchPlayerSessionEp
  | updatePlayerSessionErrorEp
  | setDisconnectErrorEp
  | setMapListLoadedEp
  | setMapListLoadErrorEp
  | setMapDetailLoadedEp
  | setMapLoadDetailLoadErrorEp
  | updateCurrentGameEp
  | updatePlayerEnterEp
  | updatePlayerLeaveEp
  | updateSlotEp
  | updateNodesEp
  | updateNodesPingEp
  | setPingSnapshotEp
  | updateNodeEp
  | updateCurrentPingEp
  | updateStartGameRejectionEp
  | updateStartGameLoadingEp
  | updateGameStartedEp
  | updateStartGameErrorEp
  | updateSlotClientStatusEp
  | updateGameStatusEp
deriving DecidableEq

/-- The collaborator owning each entrypoint, read off the import lists of
ws.ts: ws-slice actions are local, the game-slice imports come from
`./game`, the map cache from `./map`, the node slice from `./node`. -/
def collabOf : Entrypoint → Collaborator
  | Entrypoint.updateClientInfoEp => Collaborator.ws
  | Entrypoint.updateReloadClientInfoErrorEp => Collaborator.ws
  | Entrypoint.updatePlayerSessionEp => Collaborator.ws
  | Entrypoint.checkCurrentGameIdEp => Collaborator.game
  | Entrypoint.patchPlayerSessionEp => Collaborator.ws
  | Entrypoint.updatePlayerSessionErrorEp => Collaborator.ws
  | Entrypoint.setDisconnectErrorEp => Collaborator.ws
  | Entrypoint.setMapListLoadedEp => Collaborator.map
  | Entrypoint.setMapListLoadErrorEp => Collaborator.map
  | Entrypoint.setMapDetailLoadedEp => Collaborator.map
  | Entrypoint.setMapLoadDetailLoadErrorEp => Collaborator.map
  | Entrypoint.updateCurrentGameEp => Collaborator.game
  | Entrypoint.updatePlayerEnterEp => Collaborator.game
  | Entrypoint.updatePlayerLeaveEp => Collaborator.game
  | Entrypoint.updateSlotEp => Collaborator.game
  | Entrypoint.updateNodesEp => Collaborator.node
  | Entrypoint.updateNodesPingEp => Collaborator.node
  | Entrypoint.setPingSnapshotEp => Collaborator.game
  | Entrypoint.updateNodeEp => Collaborator.game
  | Entrypoint.updateCurrentPingEp => Collaborator.game
  | Entrypoint.updateStartGameRejectionEp => Collaborator.game
  | Entrypoint.updateStartGameLoadingEp => Collaborator.game
  | Entrypoint.updateGameStartedEp => Collaborator.game
  | Entrypoint.updateStartGameErrorEp => Collaborator.game
  | Entrypoint.updateSlotClientStatusEp => Collaborator.game
  | Entrypoint.updateGameStatusEp => Collaborator.game

/-- The mutation entrypoints `dispatchMessage` invokes for each tag, in
dispatch order, transcribed case by case from the switch. -/
def dispatchTargets : MsgTag → List Entrypoint
  | MsgTag.ClientInfo => [Entrypoint.updateClientInfoEp]
  | MsgTag.ReloadClientInfoError => [Entrypoint.updateReloadClientInfoErrorEp]
  | MsgTag.PlayerSession => [Entrypoint.updatePlayerSessionEp]
  | MsgTag.PlayerSessionUpdate =>
    [Entrypoint.checkCurrentGameIdEp, Entrypoint.patchPlayerSessionEp]
  | MsgTag.ConnectRejected => [Entrypoint.updatePlayerSessionErrorEp]
  | MsgTag.Disconnect =>
    [Entrypoint.updatePlayerSessionErrorEp, Entrypoint.setDisconnectErrorEp]
  | MsgTag.ListMaps => [Entrypoint.setMapListLoadedEp]
  | MsgTag.ListMapsError => [Entrypoint.setMapListLoadErrorEp]
  | MsgTag.GetMapDetail => [Entrypoint.setMapDetailLoadedEp]
  | MsgTag.GetMapDetailError => [Entrypoint.setMapLoadDetailLoadErrorEp]
  | MsgTag.CurrentGameInfo => [Entrypoint.updateCurrentGameEp]
  | MsgTag.GamePlayerEnter => [Entrypoint.updatePlayerEnterEp]
  | MsgTag.GamePlayerLeave => [Entrypoint.updatePlayerLeaveEp]
  | MsgTag.GameSlotUpdate => [Entrypoint.updateSlotEp]
  | MsgTag.ListNodes => [Entrypoint.updateNodesEp]
  | MsgTag.PingUpdate => [Entrypoint.updateNodesPingEp]
  | MsgTag.GamePlayerPingMapSnapshot => [Entrypoint.setPingSnapshotEp]
  | MsgTag.GameSelectNode => [Entrypoint.updateNodeEp]
  | MsgTag.PlayerPingMapUpdate => [Entrypoint.updateCurrentPingEp]
  | MsgTag.GameStartReject => [Entrypoint.updateStartGameRejectionEp]
  | MsgTag.GameStarting => [Entrypoint.updateStartGameLoadingEp]
  | MsgTag.GameStarted => [Entrypoint.updateGameStartedEp]
  | MsgTag.GameStartError => [Entrypoint.updateStartGameErrorEp]
  | MsgTag.GameSlotClientStatusUpdate => [Entrypoint.updateSlotClientStatusEp]
  | MsgTag.GameStatusUpdate => [Entrypoint.updateGameStatusEp]

/-- C8 counterexample: the `PlayerSessionUpdate` tag dispatches two
mutation entrypoints spanning two collaborators (game-slice
`checkCurrentGameId` plus ws-slice `updatePlayerSessionPartial`), so not
every recognized tag maps to exactly one entrypoint of one collaborator. -/
theorem dispatch_single_mutation_counterexample :
    (dispatchTargets MsgTag.PlayerSessionUpdate).length = 2 ∧
    (dispatchTargets MsgTag.PlayerSessionUpdate).map collabOf
      = [Collaborator.game, Collaborator.ws] ∧
    (dispatchTargets MsgTag.Disconnect).length = 2 := by
  exact ⟨rfl, rfl, rfl⟩

/-- C8 amended: every recognized tag dispatches at least one and at most
two entrypoints; every tag except `PlayerSessionUpdate` and `Disconnect`
dispatches exactly one; `PlayerSessionUpdate` dispatches two entrypoints
across two collaborators (game and ws), `Disconnect` dispatches two
entrypoints of the single ws collaborator; `ListNodes` and `PingUpdate`
target the node-slice collaborator, outside the claim's three-collaborator
list. -/
theorem dispatch_targets_spec :
    (∀ t : MsgTag, 1 ≤ (dispatchTargets t).length ∧
      (dispatchTargets t).length ≤ 2) ∧
    (∀ t : MsgTag, t ≠ MsgTag.PlayerSessionUpdate → t ≠ MsgTag.Disconnect →
      (dispatchTargets t).length = 1) ∧
    (dispatchTargets MsgTag.PlayerSessionUpdate).map collabOf
      = [Collaborator.game, Collaborator.ws] ∧
    (dispatchTargets MsgTag.Disconnect).map collabOf
      = [Collaborator.ws, Collaborator.ws] ∧
    (dispatchTargets MsgTag.ListNodes).map collabOf = [Collaborator.node] ∧
    (dispatchTargets MsgTag.PingUpdate).map collabOf = [Collaborator.node] := by
  refine ⟨?_, ?_, rfl, rfl, rfl, rfl⟩
  · intro t
    cases t <;> exact ⟨by decide, by decide⟩
  · intro t h1 h2
    cases t <;> first
      | rfl
      | exact absurd rfl h1
      | exact absurd rfl h2

/-- Witness for `dispatch_targets_spec`: the `ClientInfo` tag dispatches
exactly one entrypoint. -/
theorem dispatch_targets_spec_witness :
    (dispatchTargets MsgTag.ClientInfo).length = 1 :=
  dispatch_targets_spec.2.1 MsgTag.ClientInfo
    (by decide) (by decide)

/-!
## Generated protobuf codec for `Node` (src/generated/node_pb.js)

The jspb `BinaryWriter`/`BinaryReader` pair is an external library; per the
spec it is an opaque boundary, modelled as a typed stream of
`(field number, value)` records. `serializeBinaryToWriter` emits one record
per non-default field; `deserializeBinaryFromReader` folds records into a
fresh message, skipping unknown field numbers.
-/

namespace NodePb

/-- The `proto.node.Node` message: proto3 scalar fields with their
defaults (`0`, `""`). -/
structure Node where
  id : Int
  name : String
  location : String
  ip_addr : String
  country_id : String
deriving DecidableEq

/-- `new proto.node.Node`: every field at its proto3 default. -/
def defaultNode : Node := ⟨0, "", "", "", ""⟩

/-- One record on the wire: a field number with an int32 or string value. -/
inductive FieldWrite
  | int32 (fieldNumber : Nat) (value : Int)
  | str (fieldNumber : Nat) (value : String)
deriving DecidableEq

/-- The field number of a record. -/
def FieldWrite.fieldNumber : FieldWrite → Nat
  | FieldWrite.int32 n _ => n
  | FieldWrite.str n _ => n

/-- `serializeBinaryToWriter`: each field is written only when it differs
from its default (`f !== 0` for the int32 id, `f.length > 0` for the
strings), in field-number order. -/
def serializeBinaryToWriter (m : Node) : List FieldWrite :=
  (if m.id ≠ 0 then [FieldWrite.int32 1 m.id] else []) ++
  (if m.name.length > 0 then [FieldWrite.str 2 m.name] else []) ++
  (if m.location.length > 0 then [FieldWrite.str 3 m.location] else []) ++
  (if m.ip_addr.length > 0 then [FieldWrite.str 4 m.ip_addr] else []) ++
  (if m.country_id.length > 0 then [FieldWrite.str 5 m.country_id] else [])

/-- One iteration of the reader loop in `deserializeBinaryFromReader`:
switch on the field number, set the matching field, skip anything else. -/
def readField (msg : Node) : FieldWrite → Node
  | FieldWrite.int32 1 v => { msg with id := v }
  | FieldWrite.str 2 v => { msg with name := v }
  | FieldWrite.str 3 v => { msg with location := v }
  | FieldWrite.str 4 v => { msg with ip_addr := v }
  | FieldWrite.str 5 v => { msg with country_id := v }
  | _ => msg

/-- `deserializeBinaryFromReader`: fold the record stream into `msg`. -/
def deserializeBinaryFromReader (msg : Node) (records : List FieldWrite) :
    Node :=
  records.foldl readField msg

/-- `deserializeBinary`: read into a fresh message. -/
def deserializeBinary (records : List FieldWrite) : Node :=
  deserializeBinaryFromReader defaultNode records

theorem string_length_eq_zero_iff (s : String) : s.length = 0 ↔ s = "" := by
  cases s with
  | mk data =>
    cases data with
    | nil =>
      constructor
      · intro _
        rfl
      · intro _
        rfl
    | cons c cs =>
      constructor
      · intro h
        have hlen : cs.length + 1 = 0 := by
          simpa [String.length] using h
        exact absurd hlen (Nat.succ_ne_zero _)
      · intro h
        exact List.noConfusion (congrArg String.data h)

theorem string_length_pos_iff (s : String) : 0 < s.length ↔ s ≠ "" := by
  constructor
  · intro h hc
    rw [hc] at h
    exact absurd h (by decide)
  · intro h
    cases hl : s.length with
    | zero => exact absurd ((string_length_eq_zero_iff s).mp hl) h
    | succ k => exact Nat.succ_pos k

/-- C9: a field appears on the wire iff its value differs from the proto3
default — the int32 `id` iff it is nonzero, each string field iff it is
non-empty. -/
theorem node_serialize_omits_defaults (m : Node) :
    ((serializeBinaryToWriter m).any
        (fun w => w.fieldNumber == 1) = true ↔ m.id ≠ 0) ∧
    ((serializeBinaryToWriter m).any
        (fun w => w.fieldNumber == 2) = true ↔ m.name ≠ "") ∧
    ((serializeBinaryToWriter m).any
        (fun w => w.fieldNumber == 3) = true ↔ m.location ≠ "") ∧
    ((serializeBinaryToWriter m).any
        (fun w => w.fieldNumber == 4) = true ↔ m.ip_addr ≠ "") ∧
    ((serializeBinaryToWriter m).any
        (fun w => w.fieldNumber == 5) = true ↔ m.country_id ≠ "") := by
  unfold serializeBinaryToWriter
  refine ⟨?_, ?_, ?_, ?_, ?_⟩ <;>
    · simp only [List.any_append]
      split_ifs <;>
        simp_all [FieldWrite.fieldNumber, string_length_pos_iff,
          string_length_eq_zero_iff]

/-- C10: serialization round-trips — deserializing the records produced by
serializing any message restores all five field values, including defaults
omitted from the wire. -/
theorem node_roundtrip (m : Node) :
    deserializeBinary (serializeBinaryToWriter m) = m := by
  cases m with
  | mk id name location ip_addr country_id =>
    unfold deserializeBinary deserializeBinaryFromReader serializeBinaryToWriter
    split_ifs <;>
      simp_all [readField, defaultNode, List.foldl_append,
        string_length_eq_zero_iff]

end NodePb
